import Mathlib

/-!
Verification development for the schema-grounded NL-to-SQL pipeline of
`src/llm_chain.py` (with `src/database.py` as the external Schema Inspector /
Query Executor boundary).

Modelling conventions:
* Python strings are embedded as `List Char` (`Str`); `"...".data` converts a
  Lean string literal.  Character classes (`\w`, `\s`) are modelled over their
  ASCII meaning, which is the alphabet every identifier and every SQL text in
  this repository uses.
* Fallible Python code (statements that can raise) is embedded with `PyRes`,
  carrying the `str(e)` message of the exception.
* The regex scans of `llm_chain.py` (`re.findall`, `re.sub`) are embedded as
  explicit left-to-right scanners.  The patterns used by the source contain
  only components whose greedy matching is forced (a maximal `\w+` run must be
  followed by `"`; a maximal `\s+`/`\s*` run must be followed by a
  non-whitespace literal), so the scanners below are exactly the Python
  semantics, with a step-count fuel bounded by the input length (every match
  consumes at least one character, so the fuel never runs out).
* The external collaborators (database, Groq LLM service) are an explicit
  environment `Env`; the observable calls the pipeline makes to them are
  recorded as a trace of `Event`s.
-/

set_option maxRecDepth 4000

abbrev Str := List Char

/-- Python `\w` over ASCII: letters, digits, underscore. -/
def isWordChar (c : Char) : Bool := c.isAlphanum || c == '_'

/-- Python `\s` / `str.isspace` over ASCII. -/
def isPySpace (c : Char) : Bool :=
  c == ' ' || c == '\t' || c == '\n' || c == '\r' || c == '\x0b' || c == '\x0c'

/-- Python `str.lower` (ASCII range, which `Char.toLower` implements). -/
def pyLower (s : Str) : Str := s.map Char.toLower

/-- `leadsWith p s` : `s` starts with `p`. -/
def leadsWith : Str → Str → Bool
  | [], _ => true
  | _ :: _, [] => false
  | p :: ps, c :: cs => decide (p = c) && leadsWith ps cs

/-- Python substring test `p in s`. -/
def hasSub : Str → Str → Bool
  | s, p =>
    if leadsWith p s then true
    else match s with
      | [] => false
      | _ :: t => hasSub t p

/-- `SubStr p s` : `p` occurs contiguously inside `s`. -/
def SubStr (p s : Str) : Prop := ∃ l r, s = l ++ p ++ r

/-- Python `str.strip()`: drop leading and trailing whitespace. -/
def pyStrip (s : Str) : Str :=
  ((s.dropWhile isPySpace).reverse.dropWhile isPySpace).reverse

/-- Python `sep.join(parts)`. -/
def pyJoin (sep : Str) : List Str → Str
  | [] => []
  | [x] => x
  | x :: y :: rest => x ++ sep ++ pyJoin sep (y :: rest)

/-- Python `str.split(sep)` for a one-character separator. -/
def splitOnChar (sep : Char) : Str → List Str
  | [] => [[]]
  | c :: rest =>
    if c = sep then [] :: splitOnChar sep rest
    else
      match splitOnChar sep rest with
      | h :: t => (c :: h) :: t
      | [] => [[c]]

/-- Wrap an identifier in double quotes, as the f-strings `f'"{col}"'` do. -/
def quoteIdent (t : Str) : Str := '"' :: (t ++ ['"'])

/-- One step of Python `str.replace` (pattern nonempty). -/
def replaceAux (pat rep : Str) : Nat → Str → Str
  | _, [] => []
  | 0, s => s
  | fuel + 1, c :: cs =>
    if leadsWith pat (c :: cs) then rep ++ replaceAux pat rep fuel ((c :: cs).drop pat.length)
    else c :: replaceAux pat rep fuel cs

/-- Python `s.replace(pat, rep)` (all non-overlapping occurrences, left to
right; the empty pattern inserts `rep` at every gap, as Python does). -/
def listReplace (s pat rep : Str) : Str :=
  match pat with
  | [] => rep ++ s.flatMap (fun c => c :: rep)
  | _ :: _ => replaceAux pat rep s.length s

/-- Decimal digit character, as Python `str(int)` renders digits. -/
def digitChar (d : Nat) : Char := Char.ofNat (48 + d)

/-- Decimal rendering of a natural, fuelled (fuel `n+1` always suffices). -/
def decAux : Nat → Nat → Str
  | 0, _ => []
  | fuel + 1, n =>
    if n < 10 then [digitChar n]
    else decAux fuel (n / 10) ++ [digitChar (n % 10)]

/-- Python `str(n)` for a natural number `n`. -/
def decRepr (n : Nat) : Str := decAux (n + 1) n

/-- Decimal value of a digit string (left inverse of `decRepr`). -/
def decVal (s : Str) : Nat := s.foldl (fun acc c => acc * 10 + (c.toNat - 48)) 0

/-- First-occurrence deduplication; models iterating Python's `set(...)`.
(The iteration order of a Python set is unspecified; the claims below only
depend on which element is picked when a single element qualifies.) -/
def eraseDupsAux (seen : List Str) : List Str → List Str
  | [] => []
  | x :: xs =>
    if x ∈ seen then eraseDupsAux seen xs
    else x :: eraseDupsAux (x :: seen) xs

def eraseDups (l : List Str) : List Str := eraseDupsAux [] l

/-- Python dict assignment `d[k] = v`: replace in place, else append. -/
def dictInsert {α : Type} : List (Str × α) → Str → α → List (Str × α)
  | [], k, v => [(k, v)]
  | (k1, v1) :: rest, k, v =>
    if k1 = k then (k, v) :: rest else (k1, v1) :: dictInsert rest k v

/-- Python dict lookup `d[k]` / `k in d`. -/
def dictLookup {α : Type} (d : List (Str × α)) (k : Str) : Option α :=
  (d.find? (fun p => decide (p.1 = k))).map Prod.snd

/-- Result of a Python call: a value, or an uncaught exception's `str(e)`. -/
inductive PyRes (α : Type) where
  | ok : α → PyRes α
  | exn : Str → PyRes α
deriving DecidableEq

/-! ### Regex scanners of `llm_chain.py` -/

/-- One attempt of matching `"(\w+)"` at the current position. -/
def parseQuotedIdent : Str → Option (Str × Str)
  | '"' :: rest =>
    match rest.takeWhile isWordChar, rest.dropWhile isWordChar with
    | c :: w, '"' :: r2 => some (c :: w, r2)
    | _, _ => none
  | _ => none

/-- `re.findall(r'"(\w+)"', sql)`: every double-quoted word, left to right,
non-overlapping (`validate_query`, line 184). -/
def findQuotedAux : Nat → Str → List Str
  | 0, _ => []
  | _ + 1, [] => []
  | fuel + 1, c :: cs =>
    match parseQuotedIdent (c :: cs) with
    | some (w, rest) => w :: findQuotedAux fuel rest
    | none => findQuotedAux fuel cs

def findQuoted (s : Str) : List Str := findQuotedAux s.length s

/-- One attempt of `"(\w+)"."(\w+)"` (the middle `.` is the regex any-char,
which in Python does not match a newline). -/
def parseQualifiedPair (s : Str) : Option (Str × Str × Str) :=
  match parseQuotedIdent s with
  | none => none
  | some (w1, r1) =>
    match r1 with
    | d :: r2 =>
      if d = '\n' then none
      else
        match parseQuotedIdent r2 with
        | some (w2, r3) => some (w1, w2, r3)
        | none => none
    | [] => none

/-- `re.findall(r'"(\w+)"."(\w+)"', sql)` (`validate_query`, line 190). -/
def findQualifiedAux : Nat → Str → List (Str × Str)
  | 0, _ => []
  | _ + 1, [] => []
  | fuel + 1, c :: cs =>
    match parseQualifiedPair (c :: cs) with
    | some (w1, w2, rest) => (w1, w2) :: findQualifiedAux fuel rest
    | none => findQualifiedAux fuel cs

def findQualified (s : Str) : List (Str × Str) := findQualifiedAux s.length s

/-- Case-insensitive literal match (re.IGNORECASE), returning the rest. -/
def stripCI : Str → Str → Option Str
  | [], s => some s
  | _ :: _, [] => none
  | p :: ps, c :: cs => if c.toLower = p.toLower then stripCI ps cs else none

/-- `\s+` : at least one whitespace character, maximal run. -/
def parseWsPlus : Str → Option Str
  | [] => none
  | c :: cs => if isPySpace c then some ((c :: cs).dropWhile isPySpace) else none

/-- The five capture groups of the join regex (line 198):
joined table, left table, left column, right table, right column. -/
structure Join where
  jt : Str
  lt : Str
  lc : Str
  rt : Str
  rc : Str
deriving DecidableEq

/-- One attempt of the join pattern
`JOIN\s+"(\w+)"\s+ON\s+"(\w+)"."(\w+)"\s*=\s*"(\w+)"."(\w+)"` (IGNORECASE)
at the current position. -/
def tryJoinAt (s : Str) : Option (Join × Str) :=
  match stripCI "JOIN".data s with
  | none => none
  | some r1 =>
    match parseWsPlus r1 with
    | none => none
    | some r2 =>
      match parseQuotedIdent r2 with
      | none => none
      | some (jt, r3) =>
        match parseWsPlus r3 with
        | none => none
        | some r4 =>
          match stripCI "ON".data r4 with
          | none => none
          | some r5 =>
            match parseWsPlus r5 with
            | none => none
            | some r6 =>
              match parseQualifiedPair r6 with
              | none => none
              | some (lt, lc, r7) =>
                match r7.dropWhile isPySpace with
                | '=' :: r9 =>
                  match parseQualifiedPair (r9.dropWhile isPySpace) with
                  | some (rt, rc, r11) => some (⟨jt, lt, lc, rt, rc⟩, r11)
                  | none => none
                | _ => none

/-- `re.findall` of the join pattern, left to right, non-overlapping. -/
def findJoinsAux : Nat → Str → List Join
  | 0, _ => []
  | _ + 1, [] => []
  | fuel + 1, c :: cs =>
    match tryJoinAt (c :: cs) with
    | some (j, rest) => j :: findJoinsAux fuel rest
    | none => findJoinsAux fuel cs

def findJoins (s : Str) : List Join := findJoinsAux s.length s

/-- One attempt of `` ```sql\s*|\s*``` `` (IGNORECASE) at the current
position: first the fence-open branch, then the fence-close branch. -/
def tryFenceAt (s : Str) : Option Str :=
  match s with
  | '`' :: '`' :: '`' :: r0 =>
    match stripCI "sql".data r0 with
    | some r1 => some (r1.dropWhile isPySpace)
    | none =>
      -- fall through to the second branch: `\s*` is empty here
      some r0
  | _ =>
    match s.dropWhile isPySpace with
    | '`' :: '`' :: '`' :: r2 =>
      if isPySpace (s.headD 'x') then some r2 else none
    | _ => none

/-- `re.sub(r'```sql\s*|\s*```', '', sql, flags=re.IGNORECASE)`
(`clean_sql_query`, line 162): remove every match. -/
def removeFencesAux : Nat → Str → Str
  | 0, s => s
  | _ + 1, [] => []
  | fuel + 1, c :: cs =>
    match tryFenceAt (c :: cs) with
    | some rest => removeFencesAux fuel rest
    | none => c :: removeFencesAux fuel cs

def removeFences (s : Str) : Str := removeFencesAux s.length s

/-! ### Schema model and external environment -/

/-- One row of `get_table_relationships()` (`database.py`): the six columns
`(table_schema, table_name, column_name, foreign_table_schema,
foreign_table_name, foreign_column_name)`.  `llm_chain.py` reads indices
1, 2, 4, 5 of the tuple, here `tbl`, `col`, `ftbl`, `fcol`. -/
structure FK where
  sch : Str
  tbl : Str
  col : Str
  fsch : Str
  ftbl : Str
  fcol : Str
deriving DecidableEq

/-- A value of the `schema_metadata` dict: either the per-table dict
`{'columns': [...], 'column_types': {...}}` built in the loop of
`get_schema_metadata`, or the raw relationships list stored under the
`'relationships'` key.  `column_types` is kept as its (name, type) pairs;
no later code reads it. -/
inductive Entry where
  | table : List Str → List (Str × Str) → Entry
  | rels : List FK → Entry
deriving DecidableEq

abbrev SchemaDict := List (Str × Entry)

def relKey : Str := "relationships".data

/-- The external collaborators, as data: the Schema Inspector answers
(`get_all_tables`, `get_table_schema` restricted to the (name, type) fields
that `llm_chain.py` reads, `get_table_relationships`), the LLM completion for
a given prompt, and the Query Executor's `(results, columns)` for a given SQL
string (`execute_sql_query` catches its own errors and returns `([], [])`, so
it is total).  Each result row is represented by its rendered `repr` text,
which is all `process_question` uses of it. -/
structure Env where
  tables : List Str
  tableSchema : Str → List (Str × Str)
  relationships : List FK
  llm : Str → Str
  execResult : Str → (List Str × List Str)

/-- Observable external calls made by one run of `process_question`. -/
inductive Event where
  | llmCall : Str → Event
  | execQuery : Str → Event
deriving DecidableEq

def Event.isLlm : Event → Bool
  | .llmCall _ => true
  | _ => false

def Event.isExec : Event → Bool
  | .execQuery _ => true
  | _ => false

/-! ### `get_schema_metadata` (lines 7-23) -/

def get_schema_metadata (env : Env) : SchemaDict :=
  let d := env.tables.foldl
    (fun d t => dictInsert d t (Entry.table ((env.tableSchema t).map Prod.fst) (env.tableSchema t))) []
  if env.relationships = [] then d else dictInsert d relKey (Entry.rels env.relationships)

/-- `[t for t in schema_metadata.keys() if t != 'relationships']` — the same
comprehension opens `prepare_schema_prompt` (line 54), `clean_sql_query`
(line 167) and `validate_query` (line 180). -/
def tablesOf (d : SchemaDict) : List Str :=
  (d.map Prod.fst).filter (fun t => decide (t ≠ relKey))

/-- `schema_metadata[t]['columns']`.  In every snapshot built by
`get_schema_metadata`, a key other than `'relationships'` always holds a
table entry, so the `[]` default for a relationships-list entry is never
reached by the callers below. -/
def colsIn (d : SchemaDict) (t : Str) : List Str :=
  match dictLookup d t with
  | some (Entry.table cols _) => cols
  | _ => []

/-- The six length-1 strings obtained by indexing either key of a per-table
dict (`'columns'` or `'column_types'`) at positions 0-5, as `rel[0]` ...
`rel[5]` do when the value stored under `'relationships'` is a table's dict
and Python iterates its keys.  Both keys begin with `"column"`, so both
iterations yield these same characters. -/
def columnKeyChars : FK :=
  FK.mk ['c'] ['o'] ['l'] ['u'] ['m'] ['n']

/-! ### `generate_table_aliases` (lines 25-49) -/

/-- `''.join(word[0] for word in words)`: an empty word raises
`IndexError: string index out of range`. -/
def firstChars : List Str → PyRes Str
  | [] => PyRes.ok []
  | [] :: _ => PyRes.exn "string index out of range".data
  | (c :: _) :: ws =>
    match firstChars ws with
    | PyRes.ok r => PyRes.ok (c :: r)
    | PyRes.exn m => PyRes.exn m

/-- The base abbreviation of lines 31-37: first letter of each `_`-separated
word when there are several words, else the first two characters. -/
def deriveAbbrev (t : Str) : PyRes Str :=
  let ws := splitOnChar '_' t
  if ws.length > 1 then firstChars ws else PyRes.ok (t.take 2)

/-- The candidate sequence tried by the collision loop: the base abbreviation,
then `base1`, `base2`, ... (`f"{base_abbrev}{counter}"`). -/
def candAbbrev (base : Str) (k : Nat) : Str :=
  if k = 0 then base else base ++ decRepr k

/-- The `while abbrev in used_abbreviations` loop of lines 42-44, fuelled:
`used.length + 1` candidates include at least one outside `used`
(`resolveAux_spec` below), so the fuel never runs out. -/
def resolveAux (base : Str) (used : List Str) : Nat → Nat → Str
  | 0, k => candAbbrev base k
  | fuel + 1, k =>
    if candAbbrev base k ∈ used then resolveAux base used fuel (k + 1)
    else candAbbrev base k

def resolveAbbrev (base : Str) (used : List Str) : Str :=
  resolveAux base used (used.length + 1) 0

/-- The loop body of lines 30-47: `aliases[table] = abbrev.lower()`,
`used_abbreviations.add(abbrev)` (the un-lowercased abbreviation is what is
reserved). -/
def genAliasesAux : List Str → List (Str × Str) → List Str → PyRes (List (Str × Str))
  | [], al, _ => PyRes.ok al
  | t :: ts, al, used =>
    match deriveAbbrev t with
    | PyRes.exn m => PyRes.exn m
    | PyRes.ok base =>
      let ab := resolveAbbrev base used
      genAliasesAux ts (dictInsert al t (pyLower ab)) (used ++ [ab])

def generate_table_aliases (tables : List Str) : PyRes (List (Str × Str)) :=
  genAliasesAux tables [] []

/-! ### `prepare_schema_prompt` / `get_sql_prompt` (lines 51-94) -/

/-- `aliases[table]` inside the table loop of `prepare_schema_prompt`.
`generate_table_aliases` assigns an alias to every input table, and the loop
iterates exactly over its input list, so the `[]` default is unreachable
there. -/
def aliasGet (al : List (Str × Str)) (t : Str) : Str := (dictLookup al t).getD []

/-- `f"\n{table} (alias: {aliases[table]}):\n" + "\n".join(cols_info)`
(lines 60-61). -/
def tableSection (al : List (Str × Str)) (t : Str) (cols : List Str) : Str :=
  '\n' :: (t ++ " (alias: ".data ++ aliasGet al t ++ "):\n".data
    ++ pyJoin "\n".data (cols.map (fun c => "    - ".data ++ c)))

/-- The table loop of lines 58-62.  A non-table entry under a non-reserved
key cannot arise from `get_schema_metadata`; for completeness it is embedded
as the `TypeError` Python would raise on `list['columns']`. -/
def sectionsOf (d : SchemaDict) (al : List (Str × Str)) : List Str → PyRes (List Str)
  | [] => PyRes.ok []
  | t :: ts =>
    match dictLookup d t with
    | some (Entry.table cols _) =>
      match sectionsOf d al ts with
      | PyRes.ok rest => PyRes.ok (tableSection al t cols :: rest)
      | PyRes.exn m => PyRes.exn m
    | some (Entry.rels _) => PyRes.exn "list indices must be integers or slices, not str".data
    | none => PyRes.exn ('\x27' :: (t ++ "\x27".data))

/-- One relationship line (line 70): `aliases[from_table]` / `aliases[to_table]`
raise `KeyError` when the referenced table has no alias. -/
def relLine (al : List (Str × Str)) (r : FK) : PyRes Str :=
  match dictLookup al r.tbl with
  | none => PyRes.exn ('\x27' :: (r.tbl ++ "\x27".data))
  | some a1 =>
    match dictLookup al r.ftbl with
    | none => PyRes.exn ('\x27' :: (r.ftbl ++ "\x27".data))
    | some a2 =>
      PyRes.ok (a1 ++ ".".data ++ r.col ++ " -> ".data ++ a2 ++ ".".data ++ r.fcol)

def relLines (al : List (Str × Str)) : List FK → PyRes (List Str)
  | [] => PyRes.ok []
  | r :: rs =>
    match relLine al r with
    | PyRes.exn m => PyRes.exn m
    | PyRes.ok line =>
      match relLines al rs with
      | PyRes.ok rest => PyRes.ok (line :: rest)
      | PyRes.exn m => PyRes.exn m

/-- `schema_metadata.get('relationships', [])` followed by the loop of
lines 67-71.  When a table literally named `relationships` exists and no
foreign keys were found, the stored value is that table's per-table dict and
`for rel in relationships` iterates its two keys `'columns'` and
`'column_types'`; string indexing then yields the characters of `"column"`
(both keys begin with it), so each iteration behaves exactly as the
pseudo-edge `columnKeyChars`: `aliases[rel[1]]` raises `KeyError(o)` unless
a table named `o` exists, then `aliases[rel[4]]` raises `KeyError(m)`
unless a table named `m` exists, and otherwise the bogus line
`alias(o).l -> alias(m).n` is rendered, once per key. -/
def relPart (d : SchemaDict) (al : List (Str × Str)) : PyRes (List Str) :=
  match dictLookup d relKey with
  | none => PyRes.ok []
  | some (Entry.rels r) => relLines al r
  | some (Entry.table _ _) => relLines al [columnKeyChars, columnKeyChars]

def prepare_schema_prompt (d : SchemaDict) : PyRes (Str × List (Str × Str)) :=
  let tables := tablesOf d
  match generate_table_aliases tables with
  | PyRes.exn m => PyRes.exn m
  | PyRes.ok aliases =>
    match sectionsOf d aliases tables with
    | PyRes.exn m => PyRes.exn m
    | PyRes.ok schema_info =>
      match relPart d aliases with
      | PyRes.exn m => PyRes.exn m
      | PyRes.ok rel_info =>
        let base := "## Tables and Columns\n".data ++ pyJoin "\n".data schema_info
        PyRes.ok
          ((if rel_info = [] then base
            else base ++ "\n\n## Relationships\n".data ++ pyJoin "\n".data rel_info),
           aliases)

def get_sql_prompt (q : Str) (d : SchemaDict) : PyRes Str :=
  match prepare_schema_prompt d with
  | PyRes.exn m => PyRes.exn m
  | PyRes.ok (sp, _) =>
    PyRes.ok
      ("Generate a PostgreSQL query to answer: ".data ++ q
        ++ "\n\nUse these requirements:\n1. Use EXACT table and column names from below\n2. Use the given table aliases\n3. Put double quotes around ALL identifiers\n4. If data isn\x27t available, respond with \x27SCHEMA_ERROR: Required data not available\x27\n\n".data
        ++ sp ++ "\n\nSQL Query:".data)

/-! ### `clean_sql_query` (lines 156-176) -/

/-- The inner column loop of lines 172-174: a column is rewritten only when
its bare name occurs somewhere and its quoted form occurs nowhere; the
rewrite replaces every occurrence. -/
def cleanColsPass (cols : List Str) (sql : Str) : Str :=
  cols.foldl
    (fun acc col =>
      if hasSub acc col && !(hasSub acc (quoteIdent col)) then
        listReplace acc col (quoteIdent col)
      else acc)
    sql

def clean_sql_query (sql0 : Str) (d : SchemaDict) : PyRes Str :=
  if hasSub sql0 "SCHEMA_ERROR".data then
    PyRes.exn "The required data is not available in the schema".data
  else
    let sql1 := pyStrip (removeFences sql0)
    if sql1 = [] then PyRes.exn "Generated SQL query is empty".data
    else
      PyRes.ok ((tablesOf d).foldl
        (fun acc t =>
          if !(hasSub acc t) && !(hasSub acc (quoteIdent t)) then acc
          else cleanColsPass (colsIn d t) acc)
        sql1)

/-! ### `validate_query` (lines 178-207) -/

def tableNotExistMsg (t : Str) : Str := "Table ".data ++ t ++ " does not exist".data

/-- The loop of lines 185-187: raise at the first referenced identifier that
is not a known table. -/
def firstUnknown (used tbls : List Str) : Option Str :=
  used.find? (fun t => decide (t ∉ tbls))

/-- The column loop of lines 191-195, raising at the first failing pair.
`table not in schema_metadata` tests the whole dict, reserved key included;
when a pair's table part is `relationships` while the key holds the
foreign-key list, Python's `list['columns']` raises `TypeError`, embedded
here with that exception's message. -/
def columnErr (d : SchemaDict) : List (Str × Str) → Option Str
  | [] => none
  | (t, c) :: rest =>
    match dictLookup d t with
    | none => some ("Table ".data ++ t ++ " not in schema".data)
    | some (Entry.table cols _) =>
      if c ∈ cols then columnErr d rest
      else some ("Column ".data ++ t ++ ".".data ++ c ++ " does not exist".data)
    | some (Entry.rels _) =>
      some "list indices must be integers or slices, not str".data

/-- Line 201: `rel[1] == join[0] and rel[2] == join[2] and rel[4] == join[3]
and rel[5] == join[4]` — a single fixed orientation. -/
def joinMatches (r : FK) (j : Join) : Bool :=
  decide (r.tbl = j.jt) && decide (r.col = j.lc) && decide (r.ftbl = j.rt)
    && decide (r.fcol = j.rc)

def joinWarnMsg (j : Join) : Str :=
  "Unrecognized join: ".data ++ j.jt ++ ".".data ++ j.lc ++ " = ".data
    ++ j.rt ++ ".".data ++ j.rc

/-- The warnings issued by the join loop of lines 199-205. -/
def joinWarnings (js : List Join) (rels : List FK) : List Str :=
  js.filterMap
    (fun j => if rels.any (fun r => joinMatches r j) then none else some (joinWarnMsg j))

/-- The relationships value the join loop iterates
(`schema_metadata.get('relationships', [])`).  When the key holds the
foreign-key list, line 201 reads the tuple fields.  When a table named
`relationships` left its per-table dict under the key (zero foreign keys),
`for rel in relationships` iterates the dict's two keys `'columns'` and
`'column_types'`; `rel[1]`, `rel[2]`, `rel[4]`, `rel[5]` are then the
length-1 strings `o`, `l`, `m`, `n` — the `columnKeyChars` pseudo-edge,
once per key — so a join of the shape `o.l = m.n` is treated as matched
and not warned about. -/
def joinRels (d : SchemaDict) : List FK :=
  match dictLookup d relKey with
  | some (Entry.rels r) => r
  | some (Entry.table _ _) => [columnKeyChars, columnKeyChars]
  | none => []

def validate_query (sql : Str) (d : SchemaDict) : PyRes (List Str) :=
  match firstUnknown (eraseDups (findQuoted sql)) (tablesOf d) with
  | some t => PyRes.exn (tableNotExistMsg t)
  | none =>
    match columnErr d (findQualified sql) with
    | some m => PyRes.exn m
    | none => PyRes.ok (joinWarnings (findJoins sql) (joinRels d))

/-! ### `process_question` (lines 209-250) -/

/-- Python `repr` of the results list, each row standing for its own rendered
`repr` text: `[row1, row2, ...]`. -/
def pyListRepr (rows : List Str) : Str := '[' :: (pyJoin ", ".data rows ++ [']'])

/-- The answer-synthesis prompt of line 238:
`f"Question: {user_question}\nResults: {results}\nProvide a natural response:"`. -/
def nlPrompt (q : Str) (rows : List Str) : Str :=
  "Question: ".data ++ q ++ "\nResults: ".data ++ pyListRepr rows
    ++ "\nProvide a natural response:".data

/-- The outer `except` of lines 246-250. -/
def errHandler (m : Str) : Str :=
  if hasSub (pyLower m) "table".data && hasSub (pyLower m) "does not exist".data then
    "I cannot answer this question with the available data. Please try a different question.".data
  else "Error: ".data ++ m

/-- The orchestrator.  The Groq client construction and the completion calls
are assumed to succeed (they are the environment's `llm`); every other
fallible step is embedded.  Note the source never calls `validate_query`:
the sanitized SQL goes straight to `execute_sql_query` (line 233).  The
second component is the trace of external calls made. -/
def process_question (env : Env) (q : Str) : (Str × List Str × Str) × List Event :=
  let d := get_schema_metadata env
  match get_sql_prompt q d with
  | PyRes.exn m => (([], [], errHandler m), [])
  | PyRes.ok p =>
    let raw := env.llm p
    match clean_sql_query raw d with
    | PyRes.exn m => (([], [], m), [Event.llmCall p])
    | PyRes.ok cleaned =>
      let results := (env.execResult cleaned).1
      if results = [] then
        ((cleaned, [], "No results found for your query".data),
         [Event.llmCall p, Event.execQuery cleaned])
      else
        ((cleaned, results, env.llm (nlPrompt q results)),
         [Event.llmCall p, Event.execQuery cleaned, Event.llmCall (nlPrompt q results)])

/-! ### Substring lemmas -/

theorem leadsWith_iff (p s : Str) : leadsWith p s = true ↔ ∃ r, s = p ++ r := by
  induction p generalizing s with
  | nil => simp [leadsWith]
  | cons a ps ih =>
    cases s with
    | nil => simp [leadsWith]
    | cons c cs =>
      simp only [leadsWith, Bool.and_eq_true, decide_eq_true_eq, ih, List.cons_append,
        List.cons.injEq]
      constructor
      · rintro ⟨h1, r, h2⟩; exact ⟨r, h1.symm, h2⟩
      · rintro ⟨r, h1, h2⟩; exact ⟨h1.symm, r, h2⟩

theorem hasSub_iff (s p : Str) : hasSub s p = true ↔ SubStr p s := by
  induction s with
  | nil =>
    rw [hasSub]
    split
    next hl =>
      rw [leadsWith_iff] at hl
      obtain ⟨r, hr⟩ := hl
      have hp : p = [] := by cases p <;> simp_all
      subst hp
      simp [SubStr]
    next hl =>
      change false = true ↔ SubStr p []
      simp only [Bool.false_eq_true, false_iff]
      rintro ⟨l, r, hlr⟩
      have h0 : l ++ p ++ r = [] := hlr.symm
      simp only [List.append_eq_nil] at h0
      obtain ⟨⟨h1, h2⟩, h3⟩ := h0
      subst h2
      exact hl (by simp [leadsWith])
  | cons c cs ih =>
    rw [hasSub]
    split
    next hl =>
      rw [leadsWith_iff] at hl
      obtain ⟨r, hr⟩ := hl
      simp only [true_iff]
      exact ⟨[], r, by simp [hr]⟩
    next hl =>
      rw [ih]
      constructor
      · rintro ⟨l, r, hlr⟩
        exact ⟨c :: l, r, by simp [hlr]⟩
      · rintro ⟨l, r, hlr⟩
        cases l with
        | nil =>
          exact absurd ((leadsWith_iff p (c :: cs)).mpr ⟨r, by simpa using hlr⟩) hl
        | cons x xs =>
          refine ⟨xs, r, ?_⟩
          have := hlr
          simp only [List.cons_append, List.cons.injEq] at this
          exact this.2

theorem SubStr_trans {a b c : Str} (h1 : SubStr a b) (h2 : SubStr b c) : SubStr a c := by
  obtain ⟨l1, r1, e1⟩ := h1
  obtain ⟨l2, r2, e2⟩ := h2
  exact ⟨l2 ++ l1, r1 ++ r2, by simp [e2, e1, List.append_assoc]⟩

theorem hasSub_trans {s b p : Str} (h1 : hasSub s b = true) (h2 : hasSub b p = true) :
    hasSub s p = true :=
  (hasSub_iff s p).mpr (SubStr_trans ((hasSub_iff b p).mp h2) ((hasSub_iff s b).mp h1))

/-! ### Concrete fixtures -/

/-- Snapshot `{orders: [order_id, cust_id]}` from the spec's own test fixture. -/
def d34 : SchemaDict :=
  [("orders".data, Entry.table ["order_id".data, "cust_id".data]
    [("order_id".data, "integer".data), ("cust_id".data, "integer".data)])]

def ghostSql : Str := "SELECT * FROM \"ghost\"".data

/-- Inspector sees only `orders`; the model answers with SQL naming an
unknown table. -/
def envC1 : Env :=
  Env.mk ["orders".data]
    (fun t => if t = "orders".data then
        [("order_id".data, "integer".data), ("cust_id".data, "integer".data)]
      else [])
    [] (fun _ => ghostSql) (fun _ => ([], []))

/-- Inspector unreachable / zero tables: empty table list, no foreign keys. -/
def envC2 : Env := Env.mk [] (fun _ => []) [] (fun _ => "SELECT 1".data) (fun _ => ([], []))

/-- The model declines with the escape sentinel. -/
def envC5 : Env :=
  Env.mk ["orders".data] (fun _ => [("order_id".data, "integer".data)]) []
    (fun _ => "SCHEMA_ERROR: Required data not available".data) (fun _ => ([], []))

/-- The prompt `get_sql_prompt` builds over the empty snapshot. -/
def emptyPromptOf (q : Str) : Str :=
  match get_sql_prompt q [] with
  | PyRes.ok p => p
  | PyRes.exn _ => []

/-! ### Claim theorems C1-C5 -/

/-- C1: the claim says `validate_query` is the gate between the model's
output and execution.  In the source `process_question` never calls
`validate_query`: on a run whose model completion names the unknown table
`ghost`, the exact SQL that `validate_query` rejects with `UnknownTable` is
nevertheless handed to the Query Executor. -/
theorem C1_unvalidated_sql_executed :
    Event.execQuery ghostSql ∈ (process_question envC1 "list everything".data).2
    ∧ validate_query ghostSql (get_schema_metadata envC1)
      = PyRes.exn (tableNotExistMsg "ghost".data) := by
  exact ⟨by decide, by decide⟩

/-- C2 counterexample: with an empty schema snapshot (inspector unreachable /
zero tables) the pipeline does not stop: the trace of the run contains a
Language Model Service call, contradicting "terminates before any Language
Model Service call is made". -/
theorem C2_model_called_with_empty_schema :
    get_schema_metadata envC2 = []
    ∧ (process_question envC2 "q".data).2.any Event.isLlm = true := by
  exact ⟨rfl, by decide⟩

/-- C2 amended: there is no `NoSchema` condition.  On an empty snapshot the
pipeline builds the prompt over zero tables and its first external call is
still the Language Model Service call with that prompt. -/
theorem C2_empty_schema_still_calls_model (env : Env) (q : Str)
    (h1 : env.tables = []) (h2 : env.relationships = []) :
    get_sql_prompt q (get_schema_metadata env) = PyRes.ok (emptyPromptOf q)
    ∧ (process_question env q).2.head? = some (Event.llmCall (emptyPromptOf q)) := by
  have hd : get_schema_metadata env = [] := by simp [get_schema_metadata, h1, h2]
  have hp : get_sql_prompt q (get_schema_metadata env) = PyRes.ok (emptyPromptOf q) := by
    rw [hd]; rfl
  refine ⟨hp, ?_⟩
  simp only [process_question, hp]
  cases hc : clean_sql_query (env.llm (emptyPromptOf q)) (get_schema_metadata env) with
  | exn m => simp [hc]
  | ok cleaned =>
    by_cases hr : (env.execResult cleaned).1 = [] <;> simp [hc, hr]

theorem C2_w :
    get_sql_prompt "q".data (get_schema_metadata envC2) = PyRes.ok (emptyPromptOf "q".data)
    ∧ (process_question envC2 "q".data).2.head?
      = some (Event.llmCall (emptyPromptOf "q".data)) :=
  C2_empty_schema_still_calls_model envC2 "q".data rfl rfl

/-- C3: the claim says a fully double-quoted query over known tables and
columns is accepted, with only table-position identifiers required to name
tables.  The source's table check collects every double-quoted identifier
(`re.findall(r'"(\w+)"', sql)`), so the quoted known column `order_id` in
`SELECT "orders"."order_id" FROM "orders"` is itself treated as a table
reference and the query is rejected with `UnknownTable(order_id)`. -/
theorem C3_quoted_column_rejected_as_unknown_table :
    validate_query "SELECT \"orders\".\"order_id\" FROM \"orders\"".data d34
      = PyRes.exn (tableNotExistMsg "order_id".data) := by decide

/-- C4 counterexample: on the claim's own instance (schema
`{orders: [order_id, cust_id]}`, raw SQL `SELECT order_id FROM orders`) the
sanitizer's output leaves the bare table name `orders` unquoted, so not
every bare known identifier is rewritten. -/
theorem C4_table_name_left_unquoted :
    clean_sql_query "SELECT order_id FROM orders".data d34
      = PyRes.ok "SELECT \"order_id\" FROM orders".data
    ∧ hasSub "SELECT \"order_id\" FROM orders".data "\"orders\"".data = false := by
  exact ⟨by decide, by decide⟩

/-- C4 amended: the sanitizer rewrites only column names, never table names,
and the rewrite is keyed on whole-string containment: a column is rewritten
(all bare occurrences at once) only when its quoted form appears nowhere in
the SQL, so a second bare occurrence next to an already-quoted one is left
alone. -/
theorem C4_sanitizer_rewrites_only_columns :
    clean_sql_query "SELECT order_id FROM orders".data d34
      = PyRes.ok "SELECT \"order_id\" FROM orders".data
    ∧ clean_sql_query "SELECT \"order_id\", order_id FROM orders".data d34
      = PyRes.ok "SELECT \"order_id\", order_id FROM orders".data := by
  exact ⟨by decide, by decide⟩

/-- C5: any completion containing the sentinel
`SCHEMA_ERROR: Required data not available` anywhere makes sanitization fail
with the "required data is not available" message, and the run's trace shows
no Query Executor call: the completion text is never executed. -/
theorem C5_sentinel_blocks_execution (env : Env) (q p : Str)
    (hp : get_sql_prompt q (get_schema_metadata env) = PyRes.ok p)
    (hs : hasSub (env.llm p) "SCHEMA_ERROR: Required data not available".data = true) :
    (process_question env q).1
      = ([], [], "The required data is not available in the schema".data)
    ∧ (process_question env q).2 = [Event.llmCall p] := by
  have hkey : hasSub (env.llm p) "SCHEMA_ERROR".data = true :=
    hasSub_trans hs (by decide)
  have hclean : clean_sql_query (env.llm p) (get_schema_metadata env)
      = PyRes.exn "The required data is not available in the schema".data := by
    rw [clean_sql_query, if_pos hkey]
  constructor <;> simp [process_question, hp, hclean]

def pC5 : Str :=
  match get_sql_prompt "what sold best".data (get_schema_metadata envC5) with
  | PyRes.ok p => p
  | PyRes.exn _ => []

theorem C5_w :
    (process_question envC5 "what sold best".data).1
      = ([], [], "The required data is not available in the schema".data)
    ∧ (process_question envC5 "what sold best".data).2 = [Event.llmCall pC5] :=
  C5_sentinel_blocks_execution envC5 "what sold best".data pC5 (by decide) (by decide)

/-! ### Claim C6: join checking -/

/-- Declared foreign-key edge `b.a -> a.b`. -/
def fkBA : FK :=
  FK.mk "public".data "b".data "a".data "public".data "a".data "b".data

/-- Two tables whose column names are each other's table names, so that a
join query passes the validator's table and column checks and reaches the
join comparison. -/
def d6 : SchemaDict :=
  [("a".data, Entry.table ["b".data] []),
   ("b".data, Entry.table ["a".data] []),
   (relKey, Entry.rels [fkBA])]

/-- A join written in the code's own orientation of the declared edge. -/
def sqlF : Str := "SELECT * FROM \"a\" JOIN \"b\" ON \"b\".\"a\" = \"a\".\"b\"".data

/-- The same join written in the reverse orientation. -/
def sqlR : Str := "SELECT * FROM \"b\" JOIN \"a\" ON \"a\".\"b\" = \"b\".\"a\"".data

/-- C6 counterexample: the edge `b.a -> a.b` is stored in the snapshot, yet
the reverse orientation of that very join is not recognized — the comparison
of line 201 tests a single fixed orientation, so the reversed join draws the
`Unrecognized join` warning, contradicting "compared ... in both
directions". -/
theorem C6_reverse_join_warned :
    dictLookup d6 relKey = some (Entry.rels [fkBA])
    ∧ validate_query sqlR d6 = PyRes.ok ["Unrecognized join: a.b = b.a".data] := by
  exact ⟨by decide, by decide⟩

/-- A database whose tables include `relationships` (with zero foreign
keys) plus single-character tables `o`, `x`, `l`, `m`, `n`: the reserved
key of its snapshot keeps the table entry, so the join loop iterates the
dict's keys. -/
def envW : Env :=
  Env.mk ["relationships".data, "o".data, "x".data, "l".data, "m".data, "n".data]
    (fun t =>
      if t = "x".data then [("l".data, "integer".data)]
      else if t = "m".data then [("n".data, "integer".data)]
      else [("z".data, "integer".data)])
    [] (fun _ => "SELECT 1".data) (fun _ => ([], []))

/-- A join of the shape `o.l = m.n`, the one shape the dict-key iteration
treats as matched. -/
def sqlW : Str := "SELECT * FROM \"x\" JOIN \"o\" ON \"x\".\"l\" = \"m\".\"n\"".data

/-- C6 amended: the join comparison is one-directional (joined table =
`rel[1]`, left column = `rel[2]`, right table = `rel[4]`, right column =
`rel[5]`); a reverse-oriented join of a declared edge is warned about.
Joins never cause rejection: when the table and column checks pass, the
validator accepts with exactly the warnings of this one-directional
comparison against the stored relationships value — the foreign-key edge
list when one is stored (second conjunct: the coded orientation of the
declared edge is matched, no warning), and the `"column"`-character
pseudo-edges when a table named `relationships` with zero foreign keys left
its table entry under the key (third conjunct: over such a snapshot, built
by `get_schema_metadata`, the join `o.l = m.n` is treated as matched and
its warning suppressed). -/
theorem C6_join_check_one_directional :
    (∀ (sql : Str) (d : SchemaDict),
      firstUnknown (eraseDups (findQuoted sql)) (tablesOf d) = none →
      columnErr d (findQualified sql) = none →
      validate_query sql d = PyRes.ok (joinWarnings (findJoins sql) (joinRels d)))
    ∧ validate_query sqlF d6 = PyRes.ok []
    ∧ validate_query sqlW (get_schema_metadata envW) = PyRes.ok [] := by
  refine ⟨?_, by decide, by decide⟩
  intro sql d h1 h2
  simp [validate_query, h1, h2]

theorem C6_w :
    validate_query sqlF d6 = PyRes.ok (joinWarnings (findJoins sqlF) (joinRels d6)) :=
  C6_join_check_one_directional.1 sqlF d6 (by decide) (by decide)

/-! ### Claim C8: answer-synthesis prompt -/

theorem SubStr_append_left (pre : Str) {p s : Str} (h : SubStr p s) :
    SubStr p (pre ++ s) := by
  obtain ⟨l, r, e⟩ := h
  exact ⟨pre ++ l, r, by simp [e, List.append_assoc]⟩

theorem SubStr_append_right (post : Str) {p s : Str} (h : SubStr p s) :
    SubStr p (s ++ post) := by
  obtain ⟨l, r, e⟩ := h
  exact ⟨l, r ++ post, by simp [e, List.append_assoc]⟩

theorem SubStr_pyJoin (sep : Str) (l : List Str) (r : Str) (h : r ∈ l) :
    SubStr r (pyJoin sep l) := by
  induction l with
  | nil => cases h
  | cons x xs ih =>
    cases xs with
    | nil =>
      have hx : r = x := by simpa using h
      subst hx
      exact ⟨[], [], by simp [pyJoin]⟩
    | cons y ys =>
      rcases List.mem_cons.mp h with rfl | h2
      · exact ⟨[], sep ++ pyJoin sep (y :: ys), by simp [pyJoin, List.append_assoc]⟩
      · exact SubStr_append_left (x ++ sep) (ih h2)

/-- C8 amended: the synthesis prompt of line 238 embeds the full rendered
result list — every result row's text occurs in the prompt, with no 5-row
cap and no truncation marker. -/
theorem C8_prompt_embeds_every_row (q : Str) (rows : List Str) (r : Str)
    (h : r ∈ rows) : hasSub (nlPrompt q rows) r = true := by
  apply (hasSub_iff _ _).mpr
  have h1 : SubStr r (pyListRepr rows) := by
    have h2 : SubStr r (pyJoin ", ".data rows ++ [']']) :=
      SubStr_append_right _ (SubStr_pyJoin _ _ _ h)
    exact SubStr_append_left ['['] h2
  exact SubStr_append_right _ (SubStr_append_left _ h1)

theorem C8_w : hasSub (nlPrompt "q".data ["r0".data]) "r0".data = true :=
  C8_prompt_embeds_every_row "q".data ["r0".data] "r0".data (by decide)

def rows6 : List Str :=
  ["R1".data, "R2".data, "R3".data, "R4".data, "R5".data, "R6".data]

def envC8 : Env :=
  Env.mk [] (fun _ => []) [] (fun _ => "SELECT 1".data) (fun _ => (rows6, []))

/-- C8 counterexample: on a six-row result set the second model call's
prompt is the synthesis prompt embedding all six rows — in particular the
sixth row's text occurs in it, contradicting "at most the first 5 result
rows". -/
theorem C8_six_rows_embedded :
    5 < rows6.length
    ∧ Event.llmCall (nlPrompt "q8".data rows6) ∈ (process_question envC8 "q8".data).2
    ∧ hasSub (nlPrompt "q8".data rows6) "R6".data = true := by
  refine ⟨by decide, by decide, by decide⟩

/-! ### Claim C9: the reserved `relationships` key -/

theorem relKey_not_in_tablesOf (d : SchemaDict) : relKey ∉ tablesOf d := by
  intro h
  have h2 := List.of_mem_filter h
  simp at h2

theorem eraseDupsAux_mem (l : List Str) (seen : List Str) (x : Str)
    (hx : x ∈ l) (hns : x ∉ seen) : x ∈ eraseDupsAux seen l := by
  induction l generalizing seen with
  | nil => cases hx
  | cons y ys ih =>
    rw [eraseDupsAux]
    by_cases hy : y ∈ seen
    · rw [if_pos hy]
      rcases List.mem_cons.mp hx with rfl | hx2
      · exact absurd hy hns
      · exact ih seen hx2 hns
    · rw [if_neg hy]
      by_cases hxy : x = y
      · subst hxy; exact List.mem_cons_self _ _
      · rcases List.mem_cons.mp hx with rfl | hx2
        · exact absurd rfl hxy
        · exact List.mem_cons_of_mem _ (ih (y :: seen) hx2 (by simp [hxy, hns]))

theorem firstUnknown_of_mem (L tbls : List Str) (t : Str)
    (hL : t ∈ L) (ht : t ∉ tbls) : ∃ u, firstUnknown L tbls = some u := by
  induction L with
  | nil => cases hL
  | cons y ys ih =>
    by_cases hy : y ∈ tbls
    · rcases List.mem_cons.mp hL with rfl | h2
      · exact absurd hy ht
      · obtain ⟨u, hu⟩ := ih h2
        exact ⟨u, by simp [firstUnknown, List.find?, hy] at hu ⊢; exact hu⟩
    · exact ⟨y, by simp [firstUnknown, List.find?, hy]⟩

theorem dictLookup_dictInsert {α : Type} (d : List (Str × α)) (k : Str) (v : α) :
    dictLookup (dictInsert d k v) k = some v := by
  induction d with
  | nil => simp [dictInsert, dictLookup, List.find?]
  | cons p rest ih =>
    obtain ⟨k1, v1⟩ := p
    rw [dictInsert]
    by_cases h : k1 = k
    · rw [if_pos h]; simp [dictLookup, List.find?]
    · rw [if_neg h]
      simp only [dictLookup, List.find?, decide_eq_true_eq] at ih ⊢
      simp [h, ih]

/-- C9: `relationships` is a reserved key of the schema dict: (a) the table
comprehension shared by `prepare_schema_prompt`, `clean_sql_query` and
`validate_query` never yields it, so a table by that name is excluded from
the prompt's table enumeration and from the sanitizer's quoting pass;
(b) any SQL whose double-quoted identifiers include `relationships` is
rejected by the validator; (c) whenever any foreign keys exist,
`get_schema_metadata` overwrites the key with the foreign-key edge list. -/
theorem C9_relationships_reserved :
    (∀ d : SchemaDict, relKey ∉ tablesOf d)
    ∧ (∀ (d : SchemaDict) (sql : Str), relKey ∈ findQuoted sql →
        ∃ m, validate_query sql d = PyRes.exn m)
    ∧ (∀ env : Env, env.relationships ≠ [] →
        dictLookup (get_schema_metadata env) relKey
          = some (Entry.rels env.relationships)) := by
  refine ⟨relKey_not_in_tablesOf, ?_, ?_⟩
  · intro d sql h
    have h2 : relKey ∈ eraseDups (findQuoted sql) :=
      eraseDupsAux_mem _ [] _ h (by simp)
    obtain ⟨u, hu⟩ := firstUnknown_of_mem _ _ _ h2 (relKey_not_in_tablesOf d)
    exact ⟨tableNotExistMsg u, by simp [validate_query, hu]⟩
  · intro env h
    simp [get_schema_metadata, h, dictLookup_dictInsert]

def sql9 : Str := "SELECT * FROM \"relationships\"".data

def d9 : SchemaDict := [("relationships".data, Entry.table ["x".data] [])]

def envC9 : Env :=
  Env.mk ["relationships".data, "a".data] (fun _ => [("x".data, "integer".data)])
    [fkBA] (fun _ => "SELECT 1".data) (fun _ => ([], []))

theorem C9_w :
    (∃ m, validate_query sql9 d9 = PyRes.exn m)
    ∧ dictLookup (get_schema_metadata envC9) relKey
      = some (Entry.rels envC9.relationships) :=
  ⟨C9_relationships_reserved.2.1 d9 sql9 (by decide),
   C9_relationships_reserved.2.2 envC9 (by decide)⟩

/-! ### Claim C10: totality of alias assignment -/

theorem firstChars_ok (ws : List Str) (h : [] ∉ ws) :
    ∃ r, firstChars ws = PyRes.ok r := by
  induction ws with
  | nil => exact ⟨[], rfl⟩
  | cons w rest ih =>
    cases w with
    | nil => simp at h
    | cons c w2 =>
      obtain ⟨r, hr⟩ := ih (fun hx => h (List.mem_cons_of_mem _ hx))
      exact ⟨c :: r, by simp [firstChars, hr]⟩

theorem deriveAbbrev_ok (t : Str) (h : [] ∉ splitOnChar '_' t) :
    ∃ b, deriveAbbrev t = PyRes.ok b := by
  by_cases hl : (splitOnChar '_' t).length > 1
  · obtain ⟨r, hr⟩ := firstChars_ok _ h
    exact ⟨r, by simp [deriveAbbrev, hl, hr]⟩
  · exact ⟨t.take 2, by simp [deriveAbbrev, hl]⟩

theorem genAliasesAux_ok (ts : List Str) (al : List (Str × Str)) (used : List Str)
    (h : ∀ t ∈ ts, [] ∉ splitOnChar '_' t) :
    ∃ res, genAliasesAux ts al used = PyRes.ok res := by
  induction ts generalizing al used with
  | nil => exact ⟨al, rfl⟩
  | cons t ts ih =>
    obtain ⟨b, hb⟩ := deriveAbbrev_ok t (h t (by simp))
    obtain ⟨res, hres⟩ :=
      ih (dictInsert al t (pyLower (resolveAbbrev b used))) (used ++ [resolveAbbrev b used])
        (fun x hx => h x (by simp [hx]))
    exact ⟨res, by simp [genAliasesAux, hb]; exact hres⟩

/-- C10: alias derivation is total when every table name is non-empty with
no empty underscore-separated segment (the first-character indexing then
never hits an empty word); on a name violating this — here `_a`, whose split
contains an empty word — the derivation raises `IndexError` instead of
returning an alias map. -/
theorem C10_alias_totality :
    (∀ tables : List Str, (∀ t ∈ tables, t ≠ [] ∧ [] ∉ splitOnChar '_' t) →
      ∃ al, generate_table_aliases tables = PyRes.ok al)
    ∧ generate_table_aliases [['_', 'a']]
      = PyRes.exn "string index out of range".data := by
  constructor
  · intro tables h
    exact genAliasesAux_ok tables [] [] (fun t ht => (h t ht).2)
  · decide

theorem C10_w : ∃ al, generate_table_aliases [['a', '_', 'b']] = PyRes.ok al :=
  C10_alias_totality.1 [['a', '_', 'b']] (by decide)

/-! ### Claim C7: alias distinctness -/

theorem digitChar_toNat (d : Nat) (h : d < 10) : (digitChar d).toNat = 48 + d := by
  interval_cases d <;> decide

theorem digitChar_toLower (d : Nat) (h : d < 10) : (digitChar d).toLower = digitChar d := by
  interval_cases d <;> decide

theorem decAux_val (fuel n : Nat) (h : n < fuel) : decVal (decAux fuel n) = n := by
  induction fuel generalizing n with
  | zero => omega
  | succ f ih =>
    rw [decAux]
    by_cases h10 : n < 10
    · rw [if_pos h10]
      simp [decVal, digitChar_toNat n h10]
    · rw [if_neg h10]
      have hdivlt : n / 10 < n := Nat.div_lt_self (by omega) (by omega)
      have hrec := ih (n / 10) (by omega)
      have hmod : n % 10 < 10 := Nat.mod_lt _ (by omega)
      have hdm := Nat.div_add_mod n 10
      simp only [decVal] at hrec ⊢
      rw [List.foldl_append]
      simp only [List.foldl]
      rw [hrec, digitChar_toNat _ hmod]
      omega

theorem decRepr_val (n : Nat) : decVal (decRepr n) = n :=
  decAux_val (n + 1) n (Nat.lt_succ_self n)

theorem decRepr_inj (a b : Nat) (h : decRepr a = decRepr b) : a = b := by
  have := congrArg decVal h
  rwa [decRepr_val, decRepr_val] at this

theorem decAux_ne_nil (f n : Nat) (h : 0 < f) : decAux f n ≠ [] := by
  cases f with
  | zero => omega
  | succ f2 =>
    rw [decAux]
    split <;> simp

theorem decRepr_ne_nil (n : Nat) : decRepr n ≠ [] :=
  decAux_ne_nil _ _ (Nat.succ_pos n)

theorem candAbbrev_inj (base : Str) (a b : Nat)
    (h : candAbbrev base a = candAbbrev base b) : a = b := by
  by_cases ha : a = 0 <;> by_cases hb : b = 0
  · omega
  · exfalso
    rw [candAbbrev, candAbbrev, if_pos ha, if_neg hb] at h
    have hlen := congrArg List.length h
    simp [List.length_append] at hlen
    exact decRepr_ne_nil b hlen
  · exfalso
    rw [candAbbrev, candAbbrev, if_neg ha, if_pos hb] at h
    have hlen := congrArg List.length h
    simp [List.length_append] at hlen
    exact decRepr_ne_nil a hlen
  · rw [candAbbrev, candAbbrev, if_neg ha, if_neg hb] at h
    exact decRepr_inj a b (List.append_cancel_left h)

theorem exists_candidate_free (base : Str) (used : List Str) :
    ∃ j, j < used.length + 1 ∧ candAbbrev base j ∉ used := by
  by_contra hcon
  push_neg at hcon
  have hinj : Set.InjOn (fun i : Fin (used.length + 1) => candAbbrev base i)
      ((Finset.univ : Finset (Fin (used.length + 1))) : Set (Fin (used.length + 1))) := by
    intro i _ j _ hij
    exact Fin.ext (candAbbrev_inj base _ _ hij)
  have hmem : ∀ i : Fin (used.length + 1), i ∈ (Finset.univ : Finset _) →
      candAbbrev base i ∈ used.toFinset :=
    fun i _ => List.mem_toFinset.mpr (hcon i i.isLt)
  have hcard := Finset.card_le_card_of_injOn _ hmem hinj
  have h1 : (Finset.univ : Finset (Fin (used.length + 1))).card = used.length + 1 := by
    simp
  have h2 := List.toFinset_card_le used
  omega

theorem resolveAux_not_mem (base : Str) (used : List Str) (fuel k : Nat)
    (h : ∃ j, k ≤ j ∧ j < k + fuel ∧ candAbbrev base j ∉ used) :
    resolveAux base used fuel k ∉ used := by
  induction fuel generalizing k with
  | zero =>
    obtain ⟨j, h1, h2, _⟩ := h
    omega
  | succ f ih =>
    rw [resolveAux]
    by_cases hk : candAbbrev base k ∈ used
    · rw [if_pos hk]
      apply ih (k + 1)
      obtain ⟨j, h1, h2, h3⟩ := h
      have hne : j ≠ k := fun he => h3 (he ▸ hk)
      exact ⟨j, by omega, by omega, h3⟩
    · rw [if_neg hk]
      exact hk

theorem resolveAbbrev_not_mem (base : Str) (used : List Str) :
    resolveAbbrev base used ∉ used := by
  obtain ⟨j, hj1, hj2⟩ := exists_candidate_free base used
  exact resolveAux_not_mem base used (used.length + 1) 0 ⟨j, by omega, by omega, hj2⟩

theorem resolveAux_is_cand (base : Str) (used : List Str) (fuel k : Nat) :
    ∃ j, resolveAux base used fuel k = candAbbrev base j := by
  induction fuel generalizing k with
  | zero => exact ⟨k, rfl⟩
  | succ f ih =>
    rw [resolveAux]
    by_cases hk : candAbbrev base k ∈ used
    · rw [if_pos hk]
      exact ih (k + 1)
    · rw [if_neg hk]
      exact ⟨k, rfl⟩

/-- All characters fixed by lower-casing (e.g. any all-lowercase name). -/
abbrev LCStr (s : Str) : Prop := ∀ c ∈ s, c.toLower = c

theorem decAux_chars (f n : Nat) (c : Char) (h : c ∈ decAux f n) :
    ∃ d, d < 10 ∧ c = digitChar d := by
  induction f generalizing n with
  | zero => cases h
  | succ f2 ih =>
    rw [decAux] at h
    by_cases h10 : n < 10
    · rw [if_pos h10] at h
      have : c = digitChar n := by simpa using h
      exact ⟨n, h10, this⟩
    · rw [if_neg h10] at h
      rcases List.mem_append.mp h with h1 | h2
      · exact ih _ h1
      · exact ⟨n % 10, Nat.mod_lt _ (by omega), by simpa using h2⟩

theorem decRepr_LC (n : Nat) : LCStr (decRepr n) := by
  intro c hc
  obtain ⟨d, hd, rfl⟩ := decAux_chars _ _ _ hc
  exact digitChar_toLower d hd

theorem splitOnChar_chars (sep : Char) (t : Str) :
    ∀ w ∈ splitOnChar sep t, ∀ c ∈ w, c ∈ t := by
  induction t with
  | nil =>
    intro w hw c hc
    rw [splitOnChar] at hw
    have : w = [] := by simpa using hw
    subst this
    cases hc
  | cons a rest ih =>
    intro w hw c hc
    rw [splitOnChar] at hw
    by_cases ha : a = sep
    · rw [if_pos ha] at hw
      rcases List.mem_cons.mp hw with rfl | hw2
      · cases hc
      · exact List.mem_cons_of_mem _ (ih w hw2 c hc)
    · rw [if_neg ha] at hw
      rcases hsp : splitOnChar sep rest with _ | ⟨h1, tl⟩
      · rw [hsp] at hw
        have : w = [a] := by simpa using hw
        subst this
        have : c = a := by simpa using hc
        subst this
        exact List.mem_cons_self _ _
      · rw [hsp] at hw
        rcases List.mem_cons.mp hw with rfl | hw2
        · rcases List.mem_cons.mp hc with rfl | hc2
          · exact List.mem_cons_self _ _
          · exact List.mem_cons_of_mem _ (ih h1 (by rw [hsp]; exact List.mem_cons_self _ _) c hc2)
        · exact List.mem_cons_of_mem _ (ih w (by rw [hsp]; exact List.mem_cons_of_mem _ hw2) c hc)

theorem firstChars_chars (ws : List Str) (r : Str) (h : firstChars ws = PyRes.ok r) :
    ∀ c ∈ r, ∃ w ∈ ws, c ∈ w := by
  induction ws generalizing r with
  | nil =>
    intro c hc
    rw [firstChars] at h
    cases h
    cases hc
  | cons w rest ih =>
    intro c hc
    cases w with
    | nil => rw [firstChars] at h; cases h
    | cons a w2 =>
      rw [firstChars] at h
      rcases hfc : firstChars rest with r2 | m
      · rw [hfc] at h
        cases h
        rcases List.mem_cons.mp hc with rfl | hc2
        · exact ⟨c :: w2, List.mem_cons_self _ _, List.mem_cons_self _ _⟩
        · obtain ⟨w3, hw3, hcw3⟩ := ih r2 hfc c hc2
          exact ⟨w3, List.mem_cons_of_mem _ hw3, hcw3⟩
      · rw [hfc] at h
        cases h

theorem deriveAbbrev_LC (t : Str) (ht : LCStr t) (b : Str)
    (h : deriveAbbrev t = PyRes.ok b) : LCStr b := by
  rw [deriveAbbrev] at h
  by_cases hl : (splitOnChar '_' t).length > 1
  · rw [if_pos hl] at h
    intro c hc
    obtain ⟨w, hw, hcw⟩ := firstChars_chars _ _ h c hc
    exact ht c (splitOnChar_chars '_' t w hw c hcw)
  · rw [if_neg hl] at h
    cases h
    intro c hc
    exact ht c (List.take_subset _ _ hc)

theorem candAbbrev_LC (base : Str) (hb : LCStr base) (k : Nat) :
    LCStr (candAbbrev base k) := by
  rw [candAbbrev]
  by_cases hk : k = 0
  · rw [if_pos hk]; exact hb
  · rw [if_neg hk]
    intro c hc
    rcases List.mem_append.mp hc with h1 | h2
    · exact hb c h1
    · exact decRepr_LC k c h2

theorem resolveAbbrev_LC (base : Str) (used : List Str) (hb : LCStr base) :
    LCStr (resolveAbbrev base used) := by
  obtain ⟨j, hj⟩ := resolveAux_is_cand base used (used.length + 1) 0
  rw [resolveAbbrev, hj]
  exact candAbbrev_LC base hb j

theorem pyLower_fix (s : Str) (h : LCStr s) : pyLower s = s := by
  rw [pyLower]
  induction s with
  | nil => rfl
  | cons c cs ih =>
    simp only [List.map]
    rw [h c (List.mem_cons_self _ _), ih (fun x hx => h x (List.mem_cons_of_mem _ hx))]

theorem dictInsert_snd_mem {α : Type} (d : List (Str × α)) (k : Str) (v : α)
    (x : α) (h : x ∈ (dictInsert d k v).map Prod.snd) :
    x = v ∨ x ∈ d.map Prod.snd := by
  induction d with
  | nil =>
    simp [dictInsert] at h
    exact Or.inl h
  | cons p rest ih =>
    obtain ⟨k1, v1⟩ := p
    rw [dictInsert] at h
    by_cases hk : k1 = k
    · rw [if_pos hk] at h
      simp only [List.map, List.mem_cons] at h ⊢
      rcases h with rfl | h2
      · exact Or.inl rfl
      · exact Or.inr (Or.inr h2)
    · rw [if_neg hk] at h
      simp only [List.map, List.mem_cons] at h ⊢
      rcases h with rfl | h2
      · exact Or.inr (Or.inl rfl)
      · rcases ih h2 with h3 | h4
        · exact Or.inl h3
        · exact Or.inr (Or.inr h4)

theorem dictInsert_snd_pairwise {α : Type} (d : List (Str × α)) (k : Str) (v : α)
    (hp : (d.map Prod.snd).Pairwise (· ≠ ·)) (hv : v ∉ d.map Prod.snd) :
    ((dictInsert d k v).map Prod.snd).Pairwise (· ≠ ·) := by
  induction d with
  | nil => simp [dictInsert]
  | cons p rest ih =>
    obtain ⟨k1, v1⟩ := p
    simp only [List.map, List.pairwise_cons] at hp
    simp only [List.map, List.mem_cons] at hv
    push_neg at hv
    rw [dictInsert]
    by_cases hk : k1 = k
    · rw [if_pos hk]
      simp only [List.map, List.pairwise_cons]
      refine ⟨?_, hp.2⟩
      intro x hx hvx
      exact hv.2 (hvx ▸ hx)
    · rw [if_neg hk]
      simp only [List.map, List.pairwise_cons]
      refine ⟨?_, ih hp.2 hv.2⟩
      intro x hx
      rcases dictInsert_snd_mem rest k v x hx with rfl | h2
      · exact fun he => hv.1 he.symm
      · exact hp.1 x h2

theorem genAliasesAux_distinct (ts : List Str) :
    ∀ (al : List (Str × Str)) (used : List Str),
    (∀ t ∈ ts, LCStr t) →
    (al.map Prod.snd).Pairwise (· ≠ ·) →
    (∀ v ∈ al.map Prod.snd, v ∈ used) →
    ∀ res : List (Str × Str), genAliasesAux ts al used = PyRes.ok res →
    (res.map Prod.snd).Pairwise (· ≠ ·) := by
  induction ts with
  | nil =>
    intro al used _ hp _ res h
    rw [genAliasesAux] at h
    cases h
    exact hp
  | cons t ts2 ih =>
    intro al used hts hp hsub res h
    rw [genAliasesAux] at h
    rcases hb : deriveAbbrev t with b | m
    · rw [hb] at h
      have hbLC : LCStr b := deriveAbbrev_LC t (hts t (List.mem_cons_self _ _)) b hb
      have habLC : LCStr (resolveAbbrev b used) := resolveAbbrev_LC b used hbLC
      have hfix : pyLower (resolveAbbrev b used) = resolveAbbrev b used :=
        pyLower_fix _ habLC
      have hnotmem : resolveAbbrev b used ∉ used := resolveAbbrev_not_mem b used
      have hnotval : resolveAbbrev b used ∉ al.map Prod.snd :=
        fun hin => hnotmem (hsub _ hin)
      refine ih (dictInsert al t (pyLower (resolveAbbrev b used)))
        (used ++ [resolveAbbrev b used])
        (fun x hx => hts x (List.mem_cons_of_mem _ hx)) ?_ ?_ res h
      · rw [hfix]
        exact dictInsert_snd_pairwise al t _ hp hnotval
      · intro v hv
        rw [hfix] at hv
        rcases dictInsert_snd_mem al t _ v hv with rfl | h2
        · simp
        · exact List.mem_append_left _ (hsub v h2)
    · rw [hb] at h
      cases h

/-- C7 counterexample: the collision check of lines 42-47 reserves the
un-lowercased abbreviation but stores the lowercased alias, so two tables
whose derived abbreviations differ only in case receive the same alias:
`A_B` (abbreviation `AB`) and `ab` (abbreviation `ab`) both map to `ab`. -/
theorem C7_case_collision :
    generate_table_aliases ["A_B".data, "ab".data]
      = PyRes.ok [("A_B".data, "ab".data), ("ab".data, "ab".data)]
    ∧ ¬ (([("A_B".data, "ab".data), ("ab".data, "ab".data)].map
          Prod.snd).Pairwise (· ≠ ·)) := by
  constructor
  · decide
  · intro hpw
    exact (List.pairwise_cons.mp hpw).1 "ab".data (List.mem_cons_self _ _) rfl

/-- C7 amended: aliases are pairwise distinct for inputs whose table names
are fixed by lower-casing (e.g. all-lowercase names, the usual PostgreSQL case), because
then the reserved abbreviation coincides with the stored alias; the
incrementing-suffix resolution and its left-to-right reservation behave as
claimed (second conjunct), and the map is a pure function of the input list.
In general distinctness fails only through the case mismatch shown in the
counterexample. -/
theorem C7_aliases_distinct_when_lowercase :
    (∀ tables : List Str, (∀ t ∈ tables, LCStr t) →
      ∀ al, generate_table_aliases tables = PyRes.ok al →
      (al.map Prod.snd).Pairwise (· ≠ ·))
    ∧ generate_table_aliases ["ab".data, "a_b".data, "abc".data]
      = PyRes.ok [("ab".data, "ab".data), ("a_b".data, "ab1".data),
        ("abc".data, "ab2".data)] := by
  constructor
  · intro tables h al hok
    exact genAliasesAux_distinct tables [] [] h (by simp) (by simp) al hok
  · decide

theorem C7_w :
    (([("ab".data, "ab".data), ("a_b".data, "ab1".data),
       ("abc".data, "ab2".data)]).map Prod.snd).Pairwise (· ≠ ·) :=
  C7_aliases_distinct_when_lowercase.1 ["ab".data, "a_b".data, "abc".data]
    (by decide) _ (by decide)
